import Mathlib

set_option maxRecDepth 16000

/-!
Verification development for the camera recording server
(src/camera-mcp-server/app.py).

The server keeps, per camera, a rolling directory of 10-second `.ts`
segments written by a background ffmpeg worker, and assembles `.mp4`
deliverables on demand by concatenating the most recent segments.

The filesystem is modelled as a list of `FileEntry` records (path,
modification time, creation time, byte size); the order of the list
plays the role of the unspecified `os.listdir` ordering.  Subprocess
outcomes (ffmpeg) are inputs from the environment, passed in as an
explicit `Env` value.  Every Python function relevant to the claims is
translated one-to-one below; doc comments name the source function.
-/

deriving instance DecidableEq for Except

namespace CameraServer

/-- Filesystem entry: a file's path, its modification time (`os.path.getmtime`),
creation time (`os.path.getctime`) and byte size (`os.path.getsize`).
Times are abstract naturals. -/
structure FileEntry where
  path : String
  mtime : Nat
  ctime : Nat
  size : Nat
deriving DecidableEq, Repr

/-- Membership test for a path, modelling `os.path.exists`. -/
def existsFile (fs : List FileEntry) (p : String) : Bool :=
  fs.any (fun f => f.path == p)

/-- Size lookup, modelling `os.path.getsize` (0 when absent). -/
def getSize (fs : List FileEntry) (p : String) : Nat :=
  ((fs.find? (fun f => f.path == p)).map (·.size)).getD 0

/-- Modification-time lookup, modelling `os.path.getmtime` (0 when absent). -/
def getMtime (fs : List FileEntry) (p : String) : Nat :=
  ((fs.find? (fun f => f.path == p)).map (·.mtime)).getD 0

/-- Create or overwrite a file at path `p`. -/
def writeFile (fs : List FileEntry) (p : String) (mtime ctime size : Nat) :
    List FileEntry :=
  fs.filter (fun f => f.path != p) ++ [⟨p, mtime, ctime, size⟩]

/-- Delete the file at path `p`, modelling `os.remove`. -/
def removeFile (fs : List FileEntry) (p : String) : List FileEntry :=
  fs.filter (fun f => f.path != p)

/-- Boolean suffix test on the character data of strings. -/
def strEndsWith (s suffix : String) : Bool :=
  suffix.data.isSuffixOf s.data

/-- Boolean test that path `p` names a direct child of directory `dir`,
modelling membership in `os.listdir(dir)`. -/
def inDir (dir : String) (p : String) : Bool :=
  (dir ++ "/").data.isPrefixOf p.data && !((p.data.drop (dir.length + 1)).contains '/')

/-! ## Character classes and `sanitize_filename`

Python's `re` classes `\w` and `\s` are Unicode-aware.  The model is
exact on ASCII and on the Turkish letters that occur in the configured
camera names (listed in `turkishLetters`); any other non-ASCII code
point is conservatively treated as a non-word, non-space character. -/

/-- Turkish letters appearing in the configured camera names, upper and
lower case, all matched by Python's `\w`. -/
def turkishLetters : List Char :=
  ['Ç', 'ç', 'Ş', 'ş', 'İ', 'ı', 'Ğ', 'ğ', 'Ö', 'ö', 'Ü', 'ü']

/-- Python regex class `\w` (word character): ASCII alphanumerics,
underscore, and the Turkish letters of the camera names. -/
def pyWordChar (c : Char) : Bool :=
  c.isAlphanum || c == '_' || turkishLetters.contains c

/-- Python regex class `\s` (whitespace): the six ASCII whitespace
characters. -/
def pySpaceChar (c : Char) : Bool :=
  c == ' ' || c == '\t' || c == '\n' || c == '\r' ||
    c == Char.ofNat 11 || c == Char.ofNat 12

/-- Character kept unchanged by the first substitution of
`sanitize_filename`, which is `re.sub` of the class complementary to
word, whitespace and hyphen with an underscore. -/
def sanKeep (c : Char) : Bool :=
  pyWordChar c || pySpaceChar c || c == '-'

/-- First substitution of `sanitize_filename`: every character outside
`[\w\s-]` becomes an underscore. -/
def sanStep1 (l : List Char) : List Char :=
  l.map (fun c => if sanKeep c then c else '_')

/-- Character matched by the class `[\s_]` of the second substitution. -/
def isSU (c : Char) : Bool :=
  pySpaceChar c || c == '_'

/-- Worker of the second substitution of `sanitize_filename`.  The flag
records whether the previous character belonged to a `[\s_]` run, so
each maximal run contributes exactly one underscore. -/
def collapseAux : Bool → List Char → List Char
  | _, [] => []
  | inRun, c :: rest =>
    if isSU c then
      if inRun then collapseAux true rest
      else '_' :: collapseAux true rest
    else c :: collapseAux false rest

/-- Second substitution of `sanitize_filename`: each maximal run of
whitespace/underscore characters collapses to a single underscore. -/
def collapseSU (l : List Char) : List Char :=
  collapseAux false l

/-- Final step of `sanitize_filename`: Python `str.strip` of the
underscore character from both ends. -/
def stripUnderscores (l : List Char) : List Char :=
  ((l.dropWhile (fun c => c == '_')).reverse.dropWhile (fun c => c == '_')).reverse

/-- Translation of `sanitize_filename` (app.py lines 80-84): substitute
non-`[\w\s-]` characters by `_`, collapse `[\s_]+` runs to one `_`,
strip leading and trailing underscores. -/
def sanitize_filename (name : String) : String :=
  String.mk (stripUnderscores (collapseSU (sanStep1 name.data)))

/-! ## Camera configuration and lookup -/

/-- Keys of the `cameras` dict (app.py lines 23-29), in insertion order,
which is the iteration order of a Python dict. -/
def cameraNames : List String :=
  ["KAPALI ÇARŞI", "METROHAN", "SARAÇHANE", "SULTANAHMET 1", "TAKSİM MEYDANI"]

/-- Python `str.lower` on one character.  Modelled exactly for ASCII and
for the Turkish capitals of the camera names; note that `'İ'.lower()`
produces the two-character sequence `i` followed by the combining dot
above (U+0307), exactly as CPython does.  Other characters are returned
unchanged. -/
def pyLowerChar (c : Char) : List Char :=
  if c == 'Ç' then ['ç']
  else if c == 'Ş' then ['ş']
  else if c == 'Ğ' then ['ğ']
  else if c == 'Ö' then ['ö']
  else if c == 'Ü' then ['ü']
  else if c == 'İ' then ['i', Char.ofNat 775]
  else if 65 ≤ c.toNat && c.toNat ≤ 90 then [Char.ofNat (c.toNat + 32)]
  else [c]

/-- Python `str.lower` on a string. -/
def pyLower (s : String) : String :=
  String.mk (s.data.flatMap pyLowerChar)

/-- Python substring test `needle in hay` (contiguous occurrence). -/
def strContains (hay needle : String) : Bool :=
  decide (needle.data <:+: hay.data)

/-- Third-branch normalisation of `find_camera_by_location`:
`re.sub` removing every character outside `[\w\s]`. -/
def stripSpecial (s : String) : String :=
  String.mk (s.data.filter (fun c => pyWordChar c || pySpaceChar c))

/-- Core of `find_camera_by_location` (app.py lines 138-159) after the
input has been lowered once: first an exact lowered match, then a
lowered substring match, then a substring match with special characters
removed from both sides. -/
def findCameraLowered (lo : String) : Option String :=
  match cameraNames.find? (fun n => pyLower n == lo) with
  | some n => some n
  | none =>
    match cameraNames.find? (fun n => strContains (pyLower n) lo) with
    | some n => some n
    | none =>
      cameraNames.find?
        (fun n => strContains (stripSpecial (pyLower n)) (stripSpecial lo))

/-- Translation of `find_camera_by_location`: the input is lowered once
and every comparison uses the lowered form. -/
def find_camera_by_location (camera_loc : String) : Option String :=
  findCameraLowered (pyLower camera_loc)

/-- HTTP error raised through FastAPI's `HTTPException`. -/
structure HttpError where
  status_code : Nat
  detail : String
deriving DecidableEq, Repr

/-- Python `repr` of the list of camera names, as interpolated by the
f-string in `get_camera_or_404`. -/
def pyReprNames : String :=
  "[" ++ String.intercalate ", " (cameraNames.map (fun n => "'" ++ n ++ "'")) ++ "]"

/-- Translation of `get_camera_or_404` (app.py lines 161-169). -/
def get_camera_or_404 (camera_location : String) : Except HttpError String :=
  match find_camera_by_location camera_location with
  | some n => Except.ok n
  | none =>
    Except.error ⟨404, "Camera location '" ++ camera_location ++
      ("' not found. Available: " ++ pyReprNames)⟩

/-! ## Segment store -/

/-- Seconds per captured segment (app.py line 32). -/
def SEGMENT_DURATION : Nat := 10

/-- Ring-buffer capacity of a camera's segment directory (app.py line 33). -/
def MAX_SEGMENTS : Nat := 18

/-- Per-camera segment directory `os.path.join("ts_segments", safe_name)`. -/
def tsDir (camera_name : String) : String :=
  "ts_segments/" ++ sanitize_filename camera_name

/-- Files produced by `os.listdir(dir)` filtered to names ending in
`.ts`, as done by every segment-scanning loop in app.py. -/
def listTsFiles (fs : List FileEntry) (dir : String) : List FileEntry :=
  fs.filter (fun f => inDir dir f.path && strEndsWith f.path ".ts")

/-- Sorting relation of `ts_files.sort(key=..., reverse=True)`:
newest modification time first. -/
def mtimeGE (a b : FileEntry) : Prop := b.mtime ≤ a.mtime

instance : DecidableRel mtimeGE := fun a b => Nat.decLe b.mtime a.mtime

instance : IsTotal FileEntry mtimeGE := ⟨fun a b => Nat.le_total b.mtime a.mtime⟩

instance : IsTrans FileEntry mtimeGE :=
  ⟨fun _ _ _ h₁ h₂ => Nat.le_trans h₂ h₁⟩

/-- Sorting relation of `camera_files.sort(key=..., reverse=True)` in
`cleanup_old_recordings`: newest creation time first. -/
def ctimeGE (a b : FileEntry) : Prop := b.ctime ≤ a.ctime

instance : DecidableRel ctimeGE := fun a b => Nat.decLe b.ctime a.ctime

instance : IsTotal FileEntry ctimeGE := ⟨fun a b => Nat.le_total b.ctime a.ctime⟩

instance : IsTrans FileEntry ctimeGE :=
  ⟨fun _ _ _ h₁ h₂ => Nat.le_trans h₂ h₁⟩

/-- Sorting relation of Python `list.sort()` on path strings:
lexicographic order on code points, i.e. on the character data. -/
def pathLe (a b : String) : Prop := a.data ≤ b.data

instance : DecidableRel pathLe := fun a b =>
  (inferInstance : Decidable (a.data ≤ b.data))

instance : IsTotal String pathLe := ⟨fun a b => le_total a.data b.data⟩

instance : IsTrans String pathLe := ⟨fun _ _ _ h₁ h₂ => le_trans h₁ h₂⟩

/-- Translation of `get_available_segments` (app.py lines 244-270): list
the camera's `.ts` files, sort newest-first by modification time
(Python's sort is stable, as is `List.insertionSort`), keep the first
`int(duration_minutes * 60 / SEGMENT_DURATION)` entries, and return
their paths sorted lexicographically by `recent_segments.sort()`.
A missing directory and an empty listing both produce `[]`, so the
`os.path.exists` early return needs no separate case. -/
def get_available_segments (fs : List FileEntry) (camera_name : String)
    (duration_minutes : Nat) : List String :=
  let ts := listTsFiles fs (tsDir camera_name)
  let sorted := List.insertionSort mtimeGE ts
  let required_segments := duration_minutes * 60 / SEGMENT_DURATION
  let recent_segments := (sorted.take required_segments).map (·.path)
  List.insertionSort pathLe recent_segments

/-- Shared shape of `cleanup_old_segments` and `cleanup_old_recordings`:
collect the files matching `P`, sort them with `r` (newest first), and
delete every file beyond position `keep`.  Deletion is by path, as
`os.remove` is. -/
def pruneKeep (fs : List FileEntry) (P : FileEntry → Bool)
    (r : FileEntry → FileEntry → Prop) [DecidableRel r] (keep : Nat) :
    List FileEntry :=
  let sorted := List.insertionSort r (fs.filter P)
  let removePaths := (sorted.drop keep).map (·.path)
  fs.filter (fun f => !(removePaths.contains f.path))

/-- Translation of `cleanup_old_segments` (app.py lines 172-192): keep
the `max_segments` most recently modified `.ts` files of `dir`, delete
the rest. -/
def cleanup_old_segments (fs : List FileEntry) (dir : String)
    (max_segments : Nat) : List FileEntry :=
  pruneKeep fs (fun f => inDir dir f.path && strEndsWith f.path ".ts")
    mtimeGE max_segments

/-- Filter of `cleanup_old_recordings`: deliverables of one camera,
`filename.startswith(safe_camera_name + "_") and filename.endswith(".mp4")`
inside the `recordings` directory. -/
def recMatches (safe_camera_name : String) (f : FileEntry) : Bool :=
  inDir "recordings" f.path &&
    ("recordings/" ++ safe_camera_name ++ "_").data.isPrefixOf f.path.data &&
    strEndsWith f.path ".mp4"

/-- Translation of `cleanup_old_recordings` (app.py lines 334-355): keep
the `keep_count` most recently created matching `.mp4` files, delete the
rest. -/
def cleanup_old_recordings (fs : List FileEntry) (safe_camera_name : String)
    (keep_count : Nat) : List FileEntry :=
  pruneKeep fs (recMatches safe_camera_name) ctimeGE keep_count

/-- Segment count reported by the `/camera/.../segments` endpoint
(app.py lines 597-635), `segments_available` field. -/
def segments_available (fs : List FileEntry) (camera_name : String) : Nat :=
  (listTsFiles fs (tsDir camera_name)).length

/-! ## Assembler -/

/-- Environment of one request: the wall clock used for timestamps and
file times, and the outcome of the ffmpeg subprocess invocations, which
are inputs to the program rather than part of it. -/
structure Env where
  timestamp : String
  now : Nat
  ffmpegAvailable : Bool
  ffmpegReturncode : Nat
  ffmpegStderr : String
  ffmpegCreatesOutput : Bool
  ffmpegOutputSize : Nat
deriving DecidableEq, Repr

/-- Output path `recordings/{safe_name}_{duration_minutes}min_{timestamp}.mp4`
chosen by `create_mp4_from_segments`. -/
def outputName (env : Env) (camera_name : String) (duration_minutes : Nat) :
    String :=
  "recordings/" ++ sanitize_filename camera_name ++ "_" ++
    toString duration_minutes ++ "min_" ++ env.timestamp ++ ".mp4"

/-- Temporary path `recordings/{safe_name}_filelist_{timestamp}.txt` of
the concat manifest. -/
def filelistName (env : Env) (camera_name : String) : String :=
  "recordings/" ++ sanitize_filename camera_name ++ "_filelist_" ++
    env.timestamp ++ ".txt"

/-- Path written into the concat manifest:
`os.path.relpath(segment, start="recordings")` for the sibling
directories used here prefixes the path with `../`. -/
def relFromRecordings (p : String) : String := "../" ++ p

/-- Validity filter of `create_mp4_from_segments`: the selected segment
still exists and has non-zero byte size. -/
def validSegment (fs : List FileEntry) (s : String) : Bool :=
  existsFile fs s && getSize fs s > 0

/-- Result of `create_mp4_from_segments`: the filesystem afterwards, the
returned value (`output_file` or `None`), and the list of segment paths
written to the concat manifest (empty when the function aborts before
writing it). -/
structure CreateResult where
  fs : List FileEntry
  output : Option String
  manifest : List String
deriving DecidableEq, Repr

/-- Translation of `create_mp4_from_segments` (app.py lines 272-332):
abort on an empty segment list or a missing ffmpeg; drop selected
segments that no longer exist or have zero byte size; abort if none
remain; write the manifest, run ffmpeg (which creates the output file or
not, per the environment), remove the manifest; succeed only when ffmpeg
exited 0 and the output file exists.  On failure nothing else is
deleted: the function returns `None` with the diagnostic only printed. -/
def create_mp4_from_segments (env : Env) (fs : List FileEntry)
    (camera_name : String) (segments : List String)
    (duration_minutes : Nat) : CreateResult :=
  if segments.isEmpty then ⟨fs, none, []⟩ else
  if !env.ffmpegAvailable then ⟨fs, none, []⟩ else
  let valid_segments := segments.filter (validSegment fs)
  if valid_segments.isEmpty then ⟨fs, none, []⟩ else
  let output_file := outputName env camera_name duration_minutes
  let filelist_path := filelistName env camera_name
  let fs1 := writeFile fs filelist_path env.now env.now 0
  let fs2 :=
    if env.ffmpegCreatesOutput then
      writeFile fs1 output_file env.now env.now env.ffmpegOutputSize
    else fs1
  let fs3 := removeFile fs2 filelist_path
  if env.ffmpegReturncode == 0 && existsFile fs3 output_file then
    ⟨fs3, some output_file, valid_segments.map relFromRecordings⟩
  else ⟨fs3, none, valid_segments.map relFromRecordings⟩

/-- Translation of `get_latest_recording` (app.py lines 357-377): select
segments, assemble, and on success prune the camera's deliverables
keeping the 2 most recent. -/
def get_latest_recording (env : Env) (fs : List FileEntry)
    (camera_name : String) (duration_minutes : Nat) :
    List FileEntry × Option String :=
  let segments := get_available_segments fs camera_name duration_minutes
  if segments.isEmpty then (fs, none) else
  let r := create_mp4_from_segments env fs camera_name segments duration_minutes
  match r.output with
  | some f =>
    (cleanup_old_recordings r.fs (sanitize_filename camera_name) 2, some f)
  | none => (r.fs, none)

/-! ## Query API endpoints -/

/-- Fields of `CameraRecordingResponse` relevant to the claims. -/
structure RecResponse where
  success : Bool
  camera_name : Option String := none
  file_path : Option String := none
  error : Option String := none
deriving DecidableEq, Repr

/-- Validation error body returned for an out-of-range duration. -/
def durationError : String := "Duration must be between 1 and 10 minutes"

/-- Response body of the recording endpoint for an out-of-range duration. -/
def durationErrorResponse : RecResponse :=
  { success := false, error := some durationError }

/-- Response body of the recording endpoint when no recording could be
assembled. -/
def noRecordingResponse (camera_name : String) : RecResponse :=
  { success := false, camera_name := some camera_name,
    error := some ("No recording could be created for " ++ camera_name) }

/-- Response body of the recording endpoint on success. -/
def okRecordingResponse (camera_name file : String) : RecResponse :=
  { success := true, camera_name := some camera_name, file_path := some file }

/-- Translation of `get_camera_recording_with_duration` (app.py lines
461-501): the duration guard runs first, then camera lookup (a 404 is
re-raised), then assembly. -/
def get_camera_recording_with_duration (env : Env) (fs : List FileEntry)
    (camera_location : String) (duration_minutes : Int) :
    List FileEntry × Except HttpError RecResponse :=
  if duration_minutes < 1 ∨ duration_minutes > 10 then
    (fs, Except.ok durationErrorResponse)
  else
    match get_camera_or_404 camera_location with
    | Except.error e => (fs, Except.error e)
    | Except.ok camera_name =>
      let res := get_latest_recording env fs camera_name duration_minutes.toNat
      match res.2 with
      | none => (res.1, Except.ok (noRecordingResponse camera_name))
      | some f => (res.1, Except.ok (okRecordingResponse camera_name f))

/-- Translation of `download_camera_recording_with_duration` (app.py
lines 508-530); the success value is the path streamed by
`FileResponse`. -/
def download_camera_recording_with_duration (env : Env) (fs : List FileEntry)
    (camera_location : String) (duration_minutes : Int) :
    List FileEntry × Except HttpError String :=
  if duration_minutes < 1 ∨ duration_minutes > 10 then
    (fs, Except.error ⟨400, durationError⟩)
  else
    match get_camera_or_404 camera_location with
    | Except.error e => (fs, Except.error e)
    | Except.ok camera_name =>
      let res := get_latest_recording env fs camera_name duration_minutes.toNat
      match res.2 with
      | none =>
        (res.1, Except.error ⟨404, "No recording available for " ++ camera_name⟩)
      | some f =>
        if existsFile res.1 f then (res.1, Except.ok f)
        else (res.1, Except.error ⟨404, "No recording available for " ++ camera_name⟩)

/-- Translation of the read-only part of `get_camera_status` (app.py
lines 532-595): segment count, covered seconds and the derived health
label.  The endpoint only reads the filesystem, so it returns it
unchanged alongside the response. -/
def get_camera_status (fs : List FileEntry) (camera_location : String)
    (nowT : Nat) : List FileEntry × Except HttpError (Nat × Nat × String) :=
  match get_camera_or_404 camera_location with
  | Except.error e => (fs, Except.error e)
  | Except.ok camera_name =>
    let ts := listTsFiles fs (tsDir camera_name)
    let avail := ts.length
    let newestAge : Option Nat :=
      if ts.isEmpty then none
      else some (nowT - (ts.map (·.mtime)).foldl Nat.max 0)
    let label :=
      if avail > 0 then
        if newestAge.getD 0 < 60 then "Active - receiving live segments"
        else "Segments available but not receiving live data"
      else "No data available"
    (fs, Except.ok (avail, avail * SEGMENT_DURATION, label))

/-- Translation of `get_camera_segments_info` (app.py lines 597-640):
camera name, segment count, and total covered seconds.  Read-only. -/
def get_camera_segments_info (fs : List FileEntry) (camera_location : String) :
    List FileEntry × Except HttpError (String × Nat × Nat) :=
  match get_camera_or_404 camera_location with
  | Except.error e => (fs, Except.error e)
  | Except.ok camera_name =>
    let avail := segments_available fs camera_name
    (fs, Except.ok (camera_name, avail, avail * SEGMENT_DURATION))

/-- Translation of `list_cameras` (app.py lines 419-454): for every
configured camera it calls `get_latest_recording` (which assembles and
prunes), threading the filesystem through, and reports whether a
deliverable resulted. -/
def list_cameras (env : Env) (fs : List FileEntry) :
    List FileEntry × List (String × Bool) :=
  cameraNames.foldl
    (fun acc camera_name =>
      let res := get_latest_recording env acc.1 camera_name 1
      (res.1, acc.2 ++ [(camera_name, res.2.isSome)]))
    (fs, [])

/-- Translation of `get_recording_stats` (app.py lines 642-671): calls
`get_latest_recording` for every camera, counting resulting files and
their total size. -/
def get_recording_stats (env : Env) (fs : List FileEntry) :
    List FileEntry × Nat × Nat :=
  cameraNames.foldl
    (fun acc camera_name =>
      let res := get_latest_recording env acc.1 camera_name 1
      match res.2 with
      | some f =>
        if existsFile res.1 f then
          (res.1, acc.2.1 + 1, acc.2.2 + getSize res.1 f)
        else (res.1, acc.2)
      | none => (res.1, acc.2))
    (fs, 0, 0)

/-! ## Capture worker state machine

`record_camera_segments` (app.py lines 194-242) loops forever: each
iteration picks a fresh timestamp, lets ffmpeg write segments named
`{safe}_{timestamp}_{i mod MAX_SEGMENTS}.ts` (the `-segment_wrap`
option) into the camera's directory for the session length, and only
after the session ends runs `cleanup_old_segments`.  The states of the
segment directory reachable by this cycle are generated by the two
operations below, starting from an empty directory. -/

/-- Path of the segment file ffmpeg writes for index `i` of a session,
wrapping at `MAX_SEGMENTS` as `-segment_wrap` does. -/
def segPath (safe session : String) (i : Nat) : String :=
  "ts_segments/" ++ safe ++ "/" ++ safe ++ "_" ++ session ++ "_" ++
    toString (i % MAX_SEGMENTS) ++ ".ts"

/-- One observable action of the capture/cleanup cycle for one camera. -/
inductive CamOp where
  /-- ffmpeg finishes writing one segment of the current session. -/
  | write (session : String) (i mtime size : Nat)
  /-- The session ended and `cleanup_old_segments` runs. -/
  | cleanup
deriving DecidableEq, Repr

/-- Effect of one capture-cycle action on the filesystem. -/
def execOp (safe : String) (fs : List FileEntry) : CamOp → List FileEntry
  | CamOp.write session i mtime size =>
    writeFile fs (segPath safe session i) mtime mtime size
  | CamOp.cleanup =>
    cleanup_old_segments fs ("ts_segments/" ++ safe) MAX_SEGMENTS

/-- Filesystem reached after a sequence of capture-cycle actions,
starting from the empty directory. -/
def execOps (safe : String) (ops : List CamOp) : List FileEntry :=
  ops.foldl (execOp safe) []

/-! ## General helper lemmas -/

/-- Two members of a list whose images under `f` are duplicate-free and
agree must be the same member. -/
theorem nodup_map_eq_of_mem {α β : Type} {f : α → β} {l : List α}
    (h : (l.map f).Nodup) {a b : α} (ha : a ∈ l) (hb : b ∈ l)
    (hf : f a = f b) : a = b := by
  induction l with
  | nil => cases ha
  | cons x xs ih =>
    rw [List.map_cons, List.nodup_cons] at h
    rcases List.mem_cons.mp ha with rfl | ha' <;>
      rcases List.mem_cons.mp hb with rfl | hb'
    · rfl
    · exact absurd (hf ▸ List.mem_map_of_mem f hb') h.1
    · exact absurd (hf ▸ List.mem_map_of_mem f ha') h.1
    · exact ih h.2 ha' hb'

/-- Extending an infix on the left keeps it an infix. -/
theorem isInfix_append_left {α : Type} {l t : List α} (s : List α)
    (h : l <:+: t) : l <:+: s ++ t :=
  h.trans (List.suffix_append s t).isInfix

/-- Character data of a concatenation. -/
theorem strData_append (a b : String) : (a ++ b).data = a.data ++ b.data := rfl

/-- A file surviving `writeFile` at a different path. -/
theorem mem_writeFile_of_ne {fs : List FileEntry} {f : FileEntry}
    (hf : f ∈ fs) {p : String} (hne : f.path ≠ p) (m c s : Nat) :
    f ∈ writeFile fs p m c s := by
  refine List.mem_append_left _ (List.mem_filter.mpr ⟨hf, ?_⟩)
  simpa using hne

/-- A file surviving `removeFile` at a different path. -/
theorem mem_removeFile_of_ne {fs : List FileEntry} {f : FileEntry}
    (hf : f ∈ fs) {p : String} (hne : f.path ≠ p) :
    f ∈ removeFile fs p := by
  refine List.mem_filter.mpr ⟨hf, ?_⟩
  simpa using hne

/-- Removing a path removes it. -/
theorem existsFile_removeFile_self (fs : List FileEntry) (p : String) :
    existsFile (removeFile fs p) p = false := by
  simp only [existsFile, removeFile, List.any_eq_false]
  intro f hf
  rcases List.mem_filter.mp hf with ⟨-, hne⟩
  simpa using fun h => by simp [h] at hne

/-- The file just written is present. -/
theorem mem_writeFile_self (fs : List FileEntry) (p : String) (m c s : Nat) :
    (⟨p, m, c, s⟩ : FileEntry) ∈ writeFile fs p m c s :=
  List.mem_append_right _ (List.mem_singleton.mpr rfl)

/-- First character surviving `dropWhile` refutes the predicate. -/
theorem head?_dropWhile_false {α : Type} (p : α → Bool) :
    ∀ (l : List α) {c : α}, (l.dropWhile p).head? = some c → p c = false
  | [], c => by simp
  | a :: l, c => by
    by_cases h : p a
    · rw [List.dropWhile_cons_of_pos h]
      exact head?_dropWhile_false p l
    · rw [List.dropWhile_cons_of_neg h]
      intro hc
      cases hc
      simpa using h

/-! ## Properties of `pruneKeep` (shared by both cleanup routines) -/

section PruneKeep

variable (fs : List FileEntry) (P : FileEntry → Bool)
variable (r : FileEntry → FileEntry → Prop) [DecidableRel r] (keep : Nat)

/-- Kept files were present. -/
theorem pruneKeep_subset {f : FileEntry} (hf : f ∈ pruneKeep fs P r keep) :
    f ∈ fs :=
  (List.mem_filter.mp hf).1

/-- Matching files surviving the prune, as a filter of the sorted
matching list. -/
theorem pruneKeep_filter_eq :
    List.Perm ((pruneKeep fs P r keep).filter P)
      (((List.insertionSort r (fs.filter P)).take keep).filter
        (fun f =>
          !((((List.insertionSort r (fs.filter P)).drop keep).map
              (·.path)).contains f.path))) := by
  set sorted := List.insertionSort r (fs.filter P) with hsorted
  set keepP : FileEntry → Bool := fun f =>
    !(((sorted.drop keep).map (·.path)).contains f.path) with hkeepP
  have h1 : (pruneKeep fs P r keep).filter P = (fs.filter P).filter keepP := by
    simp only [pruneKeep, ← hsorted, ← hkeepP, List.filter_filter]
    exact List.filter_congr (fun f _ => Bool.and_comm _ _)
  have h2 : List.Perm ((fs.filter P).filter keepP) (sorted.filter keepP) :=
    ((List.perm_insertionSort r (fs.filter P)).symm.filter keepP)
  have h3 : sorted.filter keepP = (sorted.take keep).filter keepP := by
    conv_lhs => rw [← List.take_append_drop keep sorted]
    rw [List.filter_append]
    have hnil : (sorted.drop keep).filter keepP = [] := by
      rw [List.filter_eq_nil_iff]
      intro f hf
      have hp : f.path ∈ (sorted.map (·.path)).drop keep := by
        rw [← List.map_drop]
        exact List.mem_map_of_mem (·.path) hf
      simp [hkeepP, hp]
    rw [hnil, List.append_nil]
  rw [h1]
  exact h2.trans (by rw [h3])

/-- After a prune at most `keep` matching files remain, whatever the
filesystem looked like. -/
theorem pruneKeep_count_le :
    ((pruneKeep fs P r keep).filter P).length ≤ keep := by
  rw [(pruneKeep_filter_eq fs P r keep).length_eq]
  calc (((List.insertionSort r (fs.filter P)).take keep).filter _).length
      ≤ ((List.insertionSort r (fs.filter P)).take keep).length :=
        List.length_filter_le _ _
    _ ≤ keep := by rw [List.length_take]; exact Nat.min_le_left _ _

variable {fs} in
/-- With duplicate-free paths, the sorted matching files' paths are
duplicate-free as well. -/
theorem pruneKeep_sorted_paths_nodup (hnd : (fs.map (·.path)).Nodup) :
    ((List.insertionSort r (fs.filter P)).map (·.path)).Nodup := by
  have hm : ((fs.filter P).map (·.path)).Nodup :=
    hnd.sublist ((List.filter_sublist fs :
      (fs.filter P).Sublist fs).map (·.path))
  exact (((List.perm_insertionSort r (fs.filter P)).map (·.path)).nodup_iff).mpr hm

variable {fs} in
/-- With duplicate-free paths, every file in the kept-prefix of the sort
survives the path-based deletion. -/
theorem pruneKeep_take_keepP (hnd : (fs.map (·.path)).Nodup) {x : FileEntry}
    (hx : x ∈ (List.insertionSort r (fs.filter P)).take keep) :
    (!((((List.insertionSort r (fs.filter P)).drop keep).map
        (·.path)).contains x.path)) = true := by
  set sorted := List.insertionSort r (fs.filter P) with hsorted
  have hnds : (sorted.map (·.path)).Nodup := pruneKeep_sorted_paths_nodup P r hnd
  rw [← List.take_append_drop keep (sorted.map (·.path)),
    List.nodup_append] at hnds
  have hxp : x.path ∈ (sorted.map (·.path)).take keep := by
    rw [← List.map_take]
    exact List.mem_map_of_mem (·.path) hx
  simp only [Bool.not_eq_true', ← Bool.not_eq_true]
  intro hcon
  have hyp : x.path ∈ (sorted.map (·.path)).drop keep := by
    rw [← List.map_drop]
    simpa [List.contains, List.elem_iff] using hcon
  exact hnds.2.2 hxp hyp

variable {fs} in
/-- With duplicate-free paths, exactly `min keep count` matching files
remain after a prune. -/
theorem pruneKeep_count_eq (hnd : (fs.map (·.path)).Nodup) :
    ((pruneKeep fs P r keep).filter P).length =
      min keep (fs.filter P).length := by
  rw [(pruneKeep_filter_eq fs P r keep).length_eq]
  rw [List.filter_eq_self.mpr (fun x hx => pruneKeep_take_keepP P r keep hnd hx)]
  rw [List.length_take, (List.perm_insertionSort r (fs.filter P)).length_eq]

variable {fs} in
/-- A kept matching file sits in the kept-prefix of the sort. -/
theorem pruneKeep_mem_take {x : FileEntry}
    (hx : x ∈ pruneKeep fs P r keep) (hPx : P x = true) :
    x ∈ (List.insertionSort r (fs.filter P)).take keep := by
  set sorted := List.insertionSort r (fs.filter P) with hsorted
  have hxs : x ∈ sorted :=
    (List.perm_insertionSort r (fs.filter P)).mem_iff.mpr
      (List.mem_filter.mpr ⟨pruneKeep_subset fs P r keep hx, hPx⟩)
  rw [← List.take_append_drop keep sorted] at hxs
  rcases List.mem_append.mp hxs with h | h
  · exact h
  · exfalso
    have hkeep := (List.mem_filter.mp hx).2
    simp only [List.contains] at hkeep
    simp at hkeep
    exact hkeep (by
      rw [← List.map_drop]
      exact List.mem_map_of_mem (·.path) h)

variable {fs} in
/-- Every file of the kept-prefix of the sort survives the prune. -/
theorem pruneKeep_take_mem (hnd : (fs.map (·.path)).Nodup) {x : FileEntry}
    (hx : x ∈ (List.insertionSort r (fs.filter P)).take keep) :
    x ∈ pruneKeep fs P r keep := by
  refine List.mem_filter.mpr ⟨?_, pruneKeep_take_keepP P r keep hnd hx⟩
  exact (List.mem_filter.mp
    ((List.perm_insertionSort r (fs.filter P)).mem_iff.mp
      (List.mem_of_mem_take hx))).1

variable {fs} in
/-- Files that do not match the filter are untouched by the prune. -/
theorem pruneKeep_keeps_nonmatching (hnd : (fs.map (·.path)).Nodup)
    {f : FileEntry} (hf : f ∈ fs) (hPf : P f = false) :
    f ∈ pruneKeep fs P r keep := by
  refine List.mem_filter.mpr ⟨hf, ?_⟩
  simp only [Bool.not_eq_true', ← Bool.not_eq_true]
  intro hcon
  have hpath : f.path ∈ ((List.insertionSort r (fs.filter P)).drop keep).map
      (·.path) := by
    simpa [List.contains, List.elem_iff] using hcon
  rcases List.mem_map.mp hpath with ⟨y, hy, hyp⟩
  have hyfs : y ∈ fs :=
    (List.mem_filter.mp
      ((List.perm_insertionSort r (fs.filter P)).mem_iff.mp
        (List.mem_of_mem_drop hy))).1
  have hyP : P y = true :=
    (List.mem_filter.mp
      ((List.perm_insertionSort r (fs.filter P)).mem_iff.mp
        (List.mem_of_mem_drop hy))).2
  have : f = y := nodup_map_eq_of_mem hnd hf hyfs hyp.symm
  rw [this, hyP] at hPf
  cases hPf

variable {fs} in
/-- Retention ranking: a matching file that survives the prune relates,
under the sorting relation, to every matching file that was deleted. -/
theorem pruneKeep_recent [IsTotal FileEntry r] [IsTrans FileEntry r]
    (hnd : (fs.map (·.path)).Nodup) {x y : FileEntry}
    (hx : x ∈ pruneKeep fs P r keep) (hPx : P x = true)
    (hy : y ∈ fs) (hPy : P y = true) (hdel : y ∉ pruneKeep fs P r keep) :
    r x y := by
  have hxt : x ∈ (List.insertionSort r (fs.filter P)).take keep :=
    pruneKeep_mem_take P r keep hx hPx
  have hys : y ∈ List.insertionSort r (fs.filter P) :=
    (List.perm_insertionSort r (fs.filter P)).mem_iff.mpr
      (List.mem_filter.mpr ⟨hy, hPy⟩)
  rw [← List.take_append_drop keep (List.insertionSort r (fs.filter P))] at hys
  rcases List.mem_append.mp hys with h | h
  · exact absurd (pruneKeep_take_mem P r keep hnd h) hdel
  · exact (List.sorted_insertionSort r
      (fs.filter P)).rel_of_mem_take_of_mem_drop hxt h

end PruneKeep

/-! ## Claim C1: segment selection and concatenation order -/

/-- Segment directory for claim C1: the lexicographically smaller
filename is the newer capture. -/
def fsC1 : List FileEntry :=
  [⟨"ts_segments/CAM/b.ts", 1, 1, 100⟩, ⟨"ts_segments/CAM/a.ts", 2, 2, 100⟩]

/-- Claim C1 is false as stated: for camera `CAM` with two segments
where `a.ts` was captured after `b.ts` (modification times 2 and 1), the
assembler returns `a.ts` before `b.ts`, so the selected batch is not
concatenated in capture-time ascending order (the oldest is not
first). -/
theorem claim_C1_counterexample :
    get_available_segments fsC1 "CAM" 1 =
      ["ts_segments/CAM/a.ts", "ts_segments/CAM/b.ts"] ∧
    getMtime fsC1 "ts_segments/CAM/a.ts" = 2 ∧
    getMtime fsC1 "ts_segments/CAM/b.ts" = 1 ∧
    ¬ List.Sorted (fun p q => getMtime fsC1 p ≤ getMtime fsC1 q)
        (get_available_segments fsC1 "CAM" 1) := by
  refine ⟨by decide, by decide, by decide, fun h => ?_⟩
  have heq : get_available_segments fsC1 "CAM" 1 =
      ["ts_segments/CAM/a.ts", "ts_segments/CAM/b.ts"] := by decide
  rw [heq] at h
  have h21 : getMtime fsC1 "ts_segments/CAM/a.ts" ≤
      getMtime fsC1 "ts_segments/CAM/b.ts" :=
    List.rel_of_sorted_cons h _ (List.mem_singleton.mpr rfl)
  revert h21
  decide

/-- Claim C1 amended: the assembler computes
`required_segments = 6 * d`, selects the `required_segments` most
recently modified segment files (all of them when fewer exist), and
concatenates them in lexicographically ascending filename order — not
in capture-time order. -/
theorem claim_C1_amended (fs : List FileEntry) (cam : String) (d : Nat) :
    (d * 60 / SEGMENT_DURATION = 6 * d) ∧
    List.Sorted pathLe (get_available_segments fs cam d) ∧
    List.Perm (get_available_segments fs cam d)
      (((List.insertionSort mtimeGE (listTsFiles fs (tsDir cam))).take
        (6 * d)).map (·.path)) ∧
    (∀ x ∈ (List.insertionSort mtimeGE (listTsFiles fs (tsDir cam))).take
        (6 * d),
      ∀ y ∈ (List.insertionSort mtimeGE (listTsFiles fs (tsDir cam))).drop
        (6 * d), y.mtime ≤ x.mtime) ∧
    ((listTsFiles fs (tsDir cam)).length ≤ 6 * d →
      List.Perm (get_available_segments fs cam d)
        ((listTsFiles fs (tsDir cam)).map (·.path))) := by
  have hreq : d * 60 / SEGMENT_DURATION = 6 * d := by
    show d * 60 / 10 = 6 * d
    omega
  have hperm : List.Perm (get_available_segments fs cam d)
      (((List.insertionSort mtimeGE (listTsFiles fs (tsDir cam))).take
        (6 * d)).map (·.path)) := by
    show List.Perm (List.insertionSort pathLe
      (((List.insertionSort mtimeGE (listTsFiles fs (tsDir cam))).take
        (d * 60 / SEGMENT_DURATION)).map (·.path))) _
    rw [hreq]
    exact List.perm_insertionSort pathLe _
  refine ⟨hreq, List.sorted_insertionSort pathLe _, hperm, ?_, ?_⟩
  · intro x hx y hy
    exact (List.sorted_insertionSort mtimeGE
      (listTsFiles fs (tsDir cam))).rel_of_mem_take_of_mem_drop hx hy
  · intro hle
    have hlen : (List.insertionSort mtimeGE (listTsFiles fs (tsDir cam))).length
        ≤ 6 * d := by
      rw [(List.perm_insertionSort mtimeGE (listTsFiles fs (tsDir cam))).length_eq]
      exact hle
    have htake := List.take_of_length_le hlen
    refine hperm.trans ?_
    rw [htake]
    exact (List.perm_insertionSort mtimeGE (listTsFiles fs (tsDir cam))).map
      (·.path)

/-- Witness for the amended claim C1 at the concrete store `fsC1`: both
segments exist, fewer than the six required, so all are selected. -/
theorem claim_C1_witness :
    (listTsFiles fsC1 (tsDir "CAM")).length ≤ 6 * 1 ∧
    List.Perm (get_available_segments fsC1 "CAM" 1)
      ((listTsFiles fsC1 (tsDir "CAM")).map (·.path)) :=
  ⟨by decide, (claim_C1_amended fsC1 "CAM" 1).2.2.2.2 (by decide)⟩

/-! ## Claim C2: segment count bounded by `MAX_SEGMENTS` -/

/-- Capture/cleanup trace for claim C2: one full session of 18 segments,
the post-session cleanup, then the first segment of the next session. -/
def opsC2 : List CamOp :=
  ((List.range 18).map (fun i => CamOp.write "S1" i (i + 1) 100)) ++
    [CamOp.cleanup, CamOp.write "S2" 0 19 100]

/-- Claim C2 is false as stated: after a full 18-segment session, its
cleanup, and the first write of the following session — a reachable
state of the capture/cleanup cycle, since cleanup only runs between
sessions — the segments-info count for the camera is 19, exceeding
`MAX_SEGMENTS = 18`. -/
theorem claim_C2_counterexample :
    segments_available (execOps "CAM" opsC2) "CAM" = 19 ∧
    MAX_SEGMENTS < segments_available (execOps "CAM" opsC2) "CAM" := by
  constructor <;> decide

/-- Claim C2 amended: immediately after `cleanup_old_segments` runs on a
camera's segment directory, the segment count reported by segments-info
is at most `MAX_SEGMENTS`; between a session's writes and its cleanup
the count can exceed the bound. -/
theorem claim_C2_amended (fs : List FileEntry) (camera_name : String) :
    segments_available
      (cleanup_old_segments fs (tsDir camera_name) MAX_SEGMENTS)
      camera_name ≤ MAX_SEGMENTS :=
  pruneKeep_count_le fs _ mtimeGE MAX_SEGMENTS

/-! ## Claim C3: which operations touch the filesystem -/

/-- Filesystem for claim C3: one camera has a single healthy segment and
no deliverable yet. -/
def fsC3 : List FileEntry :=
  [⟨"ts_segments/METROHAN/METROHAN_20250101_000000_000.ts", 5, 5, 1000⟩]

/-- Environment for claim C3: ffmpeg present and succeeding. -/
def envC3 : Env := ⟨"20250101_000001", 100, true, 0, "", true, 2000⟩

/-- Claim C3 is false as stated: `list_cameras` is not read-only — with
one fresh segment on disk and ffmpeg succeeding it assembles and writes
a new deliverable file. -/
theorem claim_C3_counterexample :
    (list_cameras envC3 fsC3).1 ≠ fsC3 ∧
    existsFile (list_cameras envC3 fsC3).1
      "recordings/METROHAN_1min_20250101_000001.mp4" = true ∧
    existsFile fsC3 "recordings/METROHAN_1min_20250101_000001.mp4" = false := by
  refine ⟨by decide, by decide, by decide⟩

/-- Claim C3 amended: `getRecording`/`download` write and may delete
files, and so do `listCameras` and `stats` (both trigger a
default-duration assembly per camera); only `getStatus` and
`getSegmentsInfo` leave the filesystem unchanged. -/
theorem claim_C3_amended (fs : List FileEntry) (loc : String) (nowT : Nat) :
    (get_camera_status fs loc nowT).1 = fs ∧
    (get_camera_segments_info fs loc).1 = fs := by
  constructor <;> cases h : get_camera_or_404 loc <;>
    simp [get_camera_status, get_camera_segments_info, h]

/-! ## Claim C4: out-of-range durations are rejected before any work -/

/-- Neutral environment fixture for endpoint witnesses. -/
def env0 : Env := ⟨"20250101_000000", 0, true, 0, "", false, 0⟩

/-- Claim C4: for any duration outside [1,10] both the recording and the
download operation return the duration validation error with the
filesystem untouched — no assembly, no write, no deletion, no partial
result. -/
theorem claim_C4 (env : Env) (fs : List FileEntry) (loc : String) (d : Int)
    (hd : d < 1 ∨ 10 < d) :
    get_camera_recording_with_duration env fs loc d =
      (fs, Except.ok durationErrorResponse) ∧
    download_camera_recording_with_duration env fs loc d =
      (fs, Except.error ⟨400, durationError⟩) := by
  have hcond : d < 1 ∨ d > 10 := hd
  constructor <;>
    simp [get_camera_recording_with_duration,
      download_camera_recording_with_duration, if_pos hcond]

/-- Witness for claim C4 at duration 0 and an arbitrary camera. -/
theorem claim_C4_witness :
    get_camera_recording_with_duration env0 [] "METROHAN" 0 =
      ([], Except.ok durationErrorResponse) ∧
    download_camera_recording_with_duration env0 [] "METROHAN" 11 =
      ([], Except.error ⟨400, durationError⟩) :=
  ⟨(claim_C4 env0 [] "METROHAN" 0 (Or.inl (by decide))).1,
   (claim_C4 env0 [] "METROHAN" 11 (Or.inr (by decide))).2⟩

/-! ## Claim C10: duration validation precedes camera lookup -/

/-- Claim C10: when the duration is out of range and the camera is
unknown, both operations still return the duration validation error, not
the unknown-camera 404. -/
theorem claim_C10 (env : Env) (fs : List FileEntry) (loc : String) (d : Int)
    (hcam : find_camera_by_location loc = none) (hd : d < 1 ∨ 10 < d) :
    (get_camera_recording_with_duration env fs loc d).2 =
      Except.ok durationErrorResponse ∧
    (download_camera_recording_with_duration env fs loc d).2 =
      Except.error ⟨400, durationError⟩ ∧
    (get_camera_recording_with_duration env fs loc d).2 ≠
      Except.error ⟨404, "Camera location '" ++ loc ++
        ("' not found. Available: " ++ pyReprNames)⟩ := by
  have _ := hcam
  have hcond : d < 1 ∨ d > 10 := hd
  refine ⟨?_, ?_, ?_⟩ <;>
    simp [get_camera_recording_with_duration,
      download_camera_recording_with_duration, if_pos hcond]

/-- Witness for claim C10: the location `nocam` resolves to no camera
and duration 11 is out of range. -/
theorem claim_C10_witness :
    (get_camera_recording_with_duration env0 [] "nocam" 11).2 =
      Except.ok durationErrorResponse :=
  (claim_C10 env0 [] "nocam" 11 (by decide) (Or.inr (by decide))).1

/-! ## Claim C5: zero-size filtering and the no-segments error -/

/-- Claim C5: a selected segment of zero byte size (or one that vanished)
is discarded before concatenation — the concat manifest holds exactly
the existing non-empty segments; when no valid segment remains the
assembler returns no output and leaves the filesystem unchanged; and a
camera with no segments at all makes the recording operation answer with
the `No recording could be created` error body, not a crash or an
output. -/
theorem claim_C5 (env : Env) (fs : List FileEntry) (cam loc : String)
    (segs : List String) (d : Int) :
    (env.ffmpegAvailable = true →
      (create_mp4_from_segments env fs cam segs d.toNat).manifest =
        (segs.filter (validSegment fs)).map relFromRecordings) ∧
    (segs.filter (validSegment fs) = [] →
      (create_mp4_from_segments env fs cam segs d.toNat).output = none ∧
      (create_mp4_from_segments env fs cam segs d.toNat).fs = fs) ∧
    (1 ≤ d → d ≤ 10 → get_camera_or_404 loc = Except.ok cam →
      get_available_segments fs cam d.toNat = [] →
      get_camera_recording_with_duration env fs loc d =
        (fs, Except.ok (noRecordingResponse cam))) := by
  refine ⟨?_, ?_, ?_⟩
  · intro hav
    cases segs with
    | nil => simp [create_mp4_from_segments]
    | cons a l =>
      simp only [create_mp4_from_segments, List.isEmpty_cons, hav,
        Bool.not_true, if_false, Bool.false_eq_true]
      by_cases hv : ((a :: l).filter (validSegment fs)).isEmpty
      · rw [if_pos hv]
        rw [List.isEmpty_iff] at hv
        simp [hv]
      · rw [if_neg hv]
        split <;> split <;> rfl
  · intro hv
    have hcreate : create_mp4_from_segments env fs cam segs d.toNat =
        ⟨fs, none, []⟩ := by
      cases segs with
      | nil => rfl
      | cons a l =>
        by_cases hav : env.ffmpegAvailable <;>
          simp [create_mp4_from_segments, hv, hav]
    rw [hcreate]
    exact ⟨rfl, rfl⟩
  · intro h1 h10 hok hseg
    have hcond : ¬(d < 1 ∨ d > 10) := by omega
    simp only [get_camera_recording_with_duration, if_neg hcond, hok,
      get_latest_recording, hseg, List.isEmpty_nil, if_true]

/-- Filesystem for the C5 witness: the only segment has zero size. -/
def fsC5 : List FileEntry := [⟨"ts_segments/CAM5/z.ts", 1, 1, 0⟩]

/-- Witness for claim C5: the zero-size segment is selected but yields
no valid segment, so assembly returns nothing and changes nothing; and a
camera with an empty store gets the no-recording error body. -/
theorem claim_C5_witness :
    (create_mp4_from_segments env0 fsC5 "CAM5" ["ts_segments/CAM5/z.ts"]
      (1 : Int).toNat).output = none ∧
    (create_mp4_from_segments env0 fsC5 "CAM5" ["ts_segments/CAM5/z.ts"]
      (1 : Int).toNat).fs = fsC5 ∧
    get_camera_recording_with_duration env0 [] "METROHAN" 1 =
      ([], Except.ok (noRecordingResponse "METROHAN")) :=
  ⟨((claim_C5 env0 fsC5 "CAM5" "x" ["ts_segments/CAM5/z.ts"] 1).2.1
      (by decide)).1,
   ((claim_C5 env0 fsC5 "CAM5" "x" ["ts_segments/CAM5/z.ts"] 1).2.1
      (by decide)).2,
   (claim_C5 env0 [] "METROHAN" "METROHAN" [] 1).2.2
      (by decide) (by decide) (by decide) (by decide)⟩

/-! ## Claim C6: behaviour when the concatenation tool fails -/

/-- Filesystem for claim C6: one healthy segment for METROHAN. -/
def fsC6 : List FileEntry :=
  [⟨"ts_segments/METROHAN/METROHAN_20250101_000000_000.ts", 5, 5, 1000⟩]

/-- Environment for claim C6: ffmpeg exits 1 after writing a partial
output file. -/
def envC6 : Env := ⟨"20250101_000001", 100, true, 1, "boom", true, 50⟩

/-- Claim C6 is false as stated: when ffmpeg exits non-zero having
created a partial output file, the assembler returns `None` (the
diagnostic is only printed) and the partial output file is still on disk
afterwards — it is not deleted. -/
theorem claim_C6_counterexample :
    (create_mp4_from_segments envC6 fsC6 "METROHAN"
      (get_available_segments fsC6 "METROHAN" 1) 1).output = none ∧
    existsFile (create_mp4_from_segments envC6 fsC6 "METROHAN"
      (get_available_segments fsC6 "METROHAN" 1) 1).fs
      (outputName envC6 "METROHAN" 1) = true := by
  constructor <;> decide

/-- Character data of the assembler's output path. -/
theorem outputName_data (env : Env) (cam : String) (d : Nat) :
    (outputName env cam d).data =
      ("recordings/" ++ sanitize_filename cam ++ "_" ++ toString d ++
        "min_" ++ env.timestamp).data ++ ['.', 'm', 'p', '4'] := rfl

/-- Character data of the manifest's temporary path. -/
theorem filelistName_data (env : Env) (cam : String) :
    (filelistName env cam).data =
      ("recordings/" ++ sanitize_filename cam ++ "_filelist_" ++
        env.timestamp).data ++ ['.', 't', 'x', 't'] := rfl

/-- Output and manifest paths always differ (their extensions differ). -/
theorem outputName_ne_filelistName (env : Env) (cam : String) (d : Nat) :
    outputName env cam d ≠ filelistName env cam := by
  intro h
  have h4 : (outputName env cam d).data.getLast? = some '4' := by
    rw [outputName_data, List.getLast?_append_of_ne_nil _ (by simp)]
    rfl
  have ht : (filelistName env cam).data.getLast? = some 't' := by
    rw [filelistName_data, List.getLast?_append_of_ne_nil _ (by simp)]
    rfl
  rw [h, ht] at h4
  simp at h4

/-- A member's path is reported as existing. -/
theorem existsFile_of_mem {fs : List FileEntry} {f : FileEntry} (hf : f ∈ fs) :
    existsFile fs f.path = true :=
  List.any_eq_true.mpr ⟨f, hf, by simp⟩

/-- Claim C6 amended: when the concatenation tool exits non-zero the
assembler returns a failure (`None`, with the diagnostic only logged,
not carried in the result); the temporary manifest is removed; files
other than the manifest and the planned output — in particular the
camera's previously existing deliverables — are unchanged; but a partial
output file written by the tool is left on disk, not deleted. -/
theorem claim_C6_amended (env : Env) (fs : List FileEntry) (cam : String)
    (segs : List String) (d : Nat) (hrc : env.ffmpegReturncode ≠ 0) :
    (create_mp4_from_segments env fs cam segs d).output = none ∧
    (∀ f ∈ fs, f.path ≠ filelistName env cam → f.path ≠ outputName env cam d →
      f ∈ (create_mp4_from_segments env fs cam segs d).fs) ∧
    (env.ffmpegAvailable = true → segs.filter (validSegment fs) ≠ [] →
      existsFile (create_mp4_from_segments env fs cam segs d).fs
        (filelistName env cam) = false) ∧
    (env.ffmpegAvailable = true → segs.filter (validSegment fs) ≠ [] →
      env.ffmpegCreatesOutput = true →
      existsFile (create_mp4_from_segments env fs cam segs d).fs
        (outputName env cam d) = true) := by
  have hbeq : (env.ffmpegReturncode == 0) = false := by
    simpa using hrc
  cases segs with
  | nil =>
    refine ⟨rfl, fun f hf _ _ => hf, fun _ hv => absurd rfl hv,
      fun _ hv _ => absurd rfl hv⟩
  | cons a l =>
    by_cases hav : env.ffmpegAvailable
    · by_cases hv : ((a :: l).filter (validSegment fs)).isEmpty
      · have hcreate : create_mp4_from_segments env fs cam (a :: l) d =
            ⟨fs, none, []⟩ := by
          simp [create_mp4_from_segments, hav, hv]
        rw [hcreate]
        refine ⟨rfl, fun f hf _ _ => hf, fun _ hne => ?_, fun _ hne _ => ?_⟩
        · exact absurd (List.isEmpty_iff.mp hv) hne
        · exact absurd (List.isEmpty_iff.mp hv) hne
      · have hcreate : create_mp4_from_segments env fs cam (a :: l) d =
            ⟨removeFile
              (if env.ffmpegCreatesOutput then
                writeFile
                  (writeFile fs (filelistName env cam) env.now env.now 0)
                  (outputName env cam d) env.now env.now env.ffmpegOutputSize
              else writeFile fs (filelistName env cam) env.now env.now 0)
              (filelistName env cam),
             none,
             ((a :: l).filter (validSegment fs)).map relFromRecordings⟩ := by
          simp [create_mp4_from_segments, hav, hv, hbeq]
        rw [hcreate]
        refine ⟨rfl, ?_, ?_, ?_⟩
        · intro f hf hnefl hneout
          refine mem_removeFile_of_ne ?_ hnefl
          by_cases hco : env.ffmpegCreatesOutput
          · rw [if_pos hco]
            exact mem_writeFile_of_ne (mem_writeFile_of_ne hf hnefl _ _ _)
              hneout _ _ _
          · rw [if_neg hco]
            exact mem_writeFile_of_ne hf hnefl _ _ _
        · intro _ _
          exact existsFile_removeFile_self _ _
        · intro _ _ hco
          rw [if_pos hco]
          have hmem : (⟨outputName env cam d, env.now, env.now,
              env.ffmpegOutputSize⟩ : FileEntry) ∈
              removeFile (writeFile
                (writeFile fs (filelistName env cam) env.now env.now 0)
                (outputName env cam d) env.now env.now env.ffmpegOutputSize)
                (filelistName env cam) :=
            mem_removeFile_of_ne (mem_writeFile_self _ _ _ _ _)
              (outputName_ne_filelistName env cam d)
          exact existsFile_of_mem hmem
    · simp only [Bool.not_eq_true] at hav
      have hcreate : create_mp4_from_segments env fs cam (a :: l) d =
          ⟨fs, none, []⟩ := by
        simp [create_mp4_from_segments, hav]
      rw [hcreate]
      exact ⟨rfl, fun f hf _ _ => hf,
        fun hc => absurd hc (by simp [hav]),
        fun hc => absurd hc (by simp [hav])⟩

/-- Witness for the amended claim C6 at the concrete failing
environment: the manifest is gone and the partial output remains. -/
theorem claim_C6_witness :
    existsFile (create_mp4_from_segments envC6 fsC6 "METROHAN"
      (get_available_segments fsC6 "METROHAN" 1) 1).fs
      (filelistName envC6 "METROHAN") = false ∧
    existsFile (create_mp4_from_segments envC6 fsC6 "METROHAN"
      (get_available_segments fsC6 "METROHAN" 1) 1).fs
      (outputName envC6 "METROHAN" 1) = true :=
  ⟨(claim_C6_amended envC6 fsC6 "METROHAN" _ 1 (by decide)).2.2.1
      (by decide) (by decide),
   (claim_C6_amended envC6 fsC6 "METROHAN" _ 1 (by decide)).2.2.2
      (by decide) (by decide) (by decide)⟩

/-! ## Claim C7: deliverable retention -/

/-- Claim C7: pruning after a successful assembly keeps exactly the
`keep_count` most recently created matching deliverables (all of them
when fewer exist) and deletes every older one, leaving non-matching
files untouched and adding nothing; and `get_latest_recording` invokes
exactly this prune with `keep_count = 2` on success.  The path-nodup
hypothesis says the directory listing has no duplicate paths, which the
filesystem guarantees. -/
theorem claim_C7 (fs : List FileEntry) (safe : String) (keep : Nat)
    (hnd : (fs.map (·.path)).Nodup) :
    ((cleanup_old_recordings fs safe keep).filter (recMatches safe)).length =
      min keep (fs.filter (recMatches safe)).length ∧
    (∀ x ∈ cleanup_old_recordings fs safe keep, recMatches safe x = true →
      ∀ y ∈ fs, recMatches safe y = true →
        y ∉ cleanup_old_recordings fs safe keep → y.ctime ≤ x.ctime) ∧
    (∀ f ∈ fs, recMatches safe f = false →
      f ∈ cleanup_old_recordings fs safe keep) ∧
    (∀ f ∈ cleanup_old_recordings fs safe keep, f ∈ fs) ∧
    (∀ (env : Env) (g : List FileEntry) (cam : String) (d : Nat),
      (get_latest_recording env g cam d).2.isSome = true →
      (get_latest_recording env g cam d).1 =
        cleanup_old_recordings
          (create_mp4_from_segments env g cam
            (get_available_segments g cam d) d).fs
          (sanitize_filename cam) 2) := by
  refine ⟨pruneKeep_count_eq _ ctimeGE keep hnd, ?_, ?_, ?_, ?_⟩
  · intro x hx hPx y hy hPy hdel
    exact pruneKeep_recent _ ctimeGE keep hnd hx hPx hy hPy hdel
  · intro f hf hPf
    exact pruneKeep_keeps_nonmatching _ ctimeGE keep hnd hf hPf
  · intro f hf
    exact pruneKeep_subset fs _ ctimeGE keep hf
  · intro env g cam d hsome
    by_cases hseg : (get_available_segments g cam d).isEmpty
    · rw [get_latest_recording, if_pos hseg] at hsome
      cases hsome
    · rw [get_latest_recording, if_neg hseg] at hsome ⊢
      cases hout : (create_mp4_from_segments env g cam
          (get_available_segments g cam d) d).output with
      | none => simp [hout] at hsome
      | some f => simp [hout]

/-- Filesystem for the C7 witness: three deliverables of one camera and
an unrelated segment file. -/
def fsC7 : List FileEntry :=
  [⟨"recordings/CAMX_1min_a.mp4", 1, 1, 10⟩,
   ⟨"recordings/CAMX_1min_b.mp4", 2, 2, 10⟩,
   ⟨"recordings/CAMX_1min_c.mp4", 3, 3, 10⟩,
   ⟨"ts_segments/CAMX/s.ts", 9, 9, 5⟩]

/-- Witness for claim C7: with three deliverables and `keep_count = 2`,
exactly two remain. -/
theorem claim_C7_witness :
    ((cleanup_old_recordings fsC7 "CAMX" 2).filter
      (recMatches "CAMX")).length =
      min 2 (fsC7.filter (recMatches "CAMX")).length ∧
    min 2 (fsC7.filter (recMatches "CAMX")).length = 2 :=
  ⟨(claim_C7 fsC7 "CAMX" 2 (by decide)).1, by decide⟩

/-! ## Claim C8: camera lookup -/

/-- Claim C8: camera resolution is case-insensitive (it depends only on
the lowered input), an exact case-insensitive match always wins over a
partial one, `taksim` resolves to `TAKSİM MEYDANI` through substring
matching, and an unresolvable location produces the 404 error whose
message contains every configured camera identifier. -/
theorem claim_C8 :
    (∀ s₁ s₂ : String, pyLower s₁ = pyLower s₂ →
      find_camera_by_location s₁ = find_camera_by_location s₂) ∧
    (∀ s : String, (∃ n ∈ cameraNames, pyLower n = pyLower s) →
      ∃ m, find_camera_by_location s = some m ∧ m ∈ cameraNames ∧
        pyLower m = pyLower s) ∧
    find_camera_by_location "taksim" = some "TAKSİM MEYDANI" ∧
    (∀ loc : String, find_camera_by_location loc = none →
      ∃ e, get_camera_or_404 loc = Except.error e ∧ e.status_code = 404 ∧
        ∀ n ∈ cameraNames, n.data <:+: e.detail.data) := by
  refine ⟨?_, ?_, by decide, ?_⟩
  · intro s₁ s₂ h
    unfold find_camera_by_location
    rw [h]
  · intro s ⟨n, hn, hl⟩
    have hsome : (cameraNames.find? (fun m => pyLower m == pyLower s)).isSome :=
      List.find?_isSome.mpr ⟨n, hn, by simp [hl]⟩
    rcases Option.isSome_iff_exists.mp hsome with ⟨m, hm⟩
    refine ⟨m, ?_, List.mem_of_find?_eq_some hm, ?_⟩
    · unfold find_camera_by_location findCameraLowered
      rw [hm]
    · have := List.find?_some hm
      simpa using this
  · intro loc h
    refine ⟨⟨404, "Camera location '" ++ loc ++
        ("' not found. Available: " ++ pyReprNames)⟩, ?_, rfl, ?_⟩
    · unfold get_camera_or_404
      rw [h]
    · intro n hn
      have h0 : n.data <:+: pyReprNames.data := by
        fin_cases hn <;> decide
      rw [strData_append, strData_append]
      exact isInfix_append_left _ (isInfix_append_left _ h0)

/-- Witness for claim C8: lookups that differ only in case coincide, an
exact match is returned for `sultanahmet 1`, and the 404 message for an
unknown location mentions every camera. -/
theorem claim_C8_witness :
    find_camera_by_location "METROHAN" = find_camera_by_location "metrohan" ∧
    (∃ m, find_camera_by_location "sultanahmet 1" = some m ∧
      m ∈ cameraNames ∧ pyLower m = pyLower "sultanahmet 1") ∧
    (∃ e, get_camera_or_404 "nocam" = Except.error e ∧ e.status_code = 404 ∧
      ∀ n ∈ cameraNames, n.data <:+: e.detail.data) :=
  ⟨claim_C8.1 "METROHAN" "metrohan" (by decide),
   claim_C8.2.1 "sultanahmet 1" ⟨"SULTANAHMET 1", by decide, by decide⟩,
   claim_C8.2.2.2 "nocam" (by decide)⟩

/-! ## Claim C9: the filename sanitizer -/

/-- Characters surviving the first substitution are kept characters or
the substituted underscore. -/
theorem mem_sanStep1 {l : List Char} {c : Char} (hc : c ∈ sanStep1 l) :
    c = '_' ∨ sanKeep c = true := by
  rcases List.mem_map.mp hc with ⟨a, -, hmap⟩
  by_cases h : sanKeep a = true
  · rw [if_pos h] at hmap
    exact Or.inr (hmap ▸ h)
  · rw [if_neg h] at hmap
    exact Or.inl hmap.symm

/-- Characters of the collapsed list: an inserted underscore, or an
original character which is neither whitespace nor underscore. -/
theorem mem_collapseAux : ∀ (b : Bool) (l : List Char) {c : Char},
    c ∈ collapseAux b l → c = '_' ∨ (c ∈ l ∧ isSU c = false) := by
  intro b l
  induction l generalizing b with
  | nil => intro c hc; cases hc
  | cons a rest ih =>
    intro c hc
    by_cases ha : isSU a = true
    · rw [collapseAux, if_pos ha] at hc
      by_cases hb : b = true
      · rw [if_pos hb] at hc
        rcases ih true hc with h | ⟨hm, hs⟩
        · exact Or.inl h
        · exact Or.inr ⟨List.mem_cons_of_mem a hm, hs⟩
      · rw [if_neg hb] at hc
        rcases List.mem_cons.mp hc with rfl | hc'
        · exact Or.inl rfl
        · rcases ih true hc' with h | ⟨hm, hs⟩
          · exact Or.inl h
          · exact Or.inr ⟨List.mem_cons_of_mem a hm, hs⟩
    · rw [collapseAux, if_neg ha] at hc
      rcases List.mem_cons.mp hc with rfl | hc'
      · exact Or.inr ⟨List.mem_cons_self _ _, by simpa using ha⟩
      · rcases ih false hc' with h | ⟨hm, hs⟩
        · exact Or.inl h
        · exact Or.inr ⟨List.mem_cons_of_mem a hm, hs⟩

/-- The collapsed list never holds two adjacent underscores, and when
the flag says a run is open it does not start with one. -/
theorem chain_collapseAux : ∀ (b : Bool) (l : List Char),
    List.Chain' (fun x y : Char => ¬(x = '_' ∧ y = '_')) (collapseAux b l) ∧
    (b = true → (collapseAux b l).head? ≠ some '_') := by
  intro b l
  induction l generalizing b with
  | nil => exact ⟨List.chain'_nil, fun _ => by rw [collapseAux]; simp⟩
  | cons a rest ih =>
    by_cases ha : isSU a = true
    · by_cases hb : b = true
      · have he : collapseAux b (a :: rest) = collapseAux true rest := by
          rw [collapseAux, if_pos ha, if_pos hb]
        rw [he]
        exact ⟨(ih true).1, fun _ => (ih true).2 rfl⟩
      · have he : collapseAux b (a :: rest) =
            '_' :: collapseAux true rest := by
          rw [collapseAux, if_pos ha, if_neg hb]
        rw [he]
        refine ⟨List.chain'_cons'.mpr ⟨?_, (ih true).1⟩,
          fun hbt => absurd hbt hb⟩
        intro y hy hcon
        exact (ih true).2 rfl (by rw [Option.mem_def.mp hy, hcon.2])
    · have he : collapseAux b (a :: rest) = a :: collapseAux false rest := by
        rw [collapseAux, if_neg ha]
      have hane : a ≠ '_' := by
        intro h
        rw [h] at ha
        exact ha (by decide)
      rw [he]
      refine ⟨List.chain'_cons'.mpr ⟨fun y _ hcon => hane hcon.1,
        (ih false).1⟩, fun _ => ?_⟩
      simp only [List.head?_cons, ne_eq, Option.some.injEq]
      exact hane

/-- Stripping trailing underscores of the already left-stripped list
keeps an initial portion of it. -/
theorem stripUnderscores_front (l : List Char) :
    stripUnderscores l <+: l.dropWhile (fun c => c == '_') := by
  unfold stripUnderscores
  refine List.reverse_suffix.mp ?_
  rw [List.reverse_reverse]
  exact List.dropWhile_suffix _

/-- Claim C9 is false as stated: the sanitizer keeps hyphens, so its
output is not restricted to alphanumeric/underscore characters — the
input `a-b` is returned unchanged with its hyphen, which is neither
alphanumeric nor an underscore. -/
theorem claim_C9_counterexample :
    sanitize_filename "a-b" = "a-b" ∧
    '-' ∈ (sanitize_filename "a-b").data ∧
    Char.isAlphanum '-' = false ∧ '-' ≠ '_' := by
  refine ⟨by decide, by decide, by decide, by decide⟩

/-- Claim C9 amended: the sanitizer replaces every character that is not
a word character (alphanumeric or underscore, in Python's Unicode-aware
sense), whitespace, or hyphen with an underscore, collapses runs of
whitespace/underscores into a single underscore, and trims leading and
trailing underscores; its output therefore consists only of word
characters and hyphens — it contains no whitespace, never two adjacent
underscores, and neither starts nor ends with an underscore. -/
theorem claim_C9_amended (name : String) :
    (∀ c ∈ (sanitize_filename name).data,
      (pyWordChar c = true ∨ c = '-') ∧ pySpaceChar c = false) ∧
    List.Chain' (fun x y : Char => ¬(x = '_' ∧ y = '_'))
      (sanitize_filename name).data ∧
    (∀ c : Char, (sanitize_filename name).data.head? = some c → c ≠ '_') ∧
    (∀ c : Char, (sanitize_filename name).data.getLast? = some c →
      c ≠ '_') := by
  have hdata : (sanitize_filename name).data =
      stripUnderscores (collapseSU (sanStep1 name.data)) := rfl
  set m := collapseSU (sanStep1 name.data) with hm
  have hpre : stripUnderscores m <+: m.dropWhile (fun c => c == '_') :=
    stripUnderscores_front m
  refine ⟨?_, ?_, ?_, ?_⟩
  · intro c hc
    rw [hdata] at hc
    have hcm : c ∈ m :=
      (List.dropWhile_suffix (fun c => c == '_')).sublist.mem
        (hpre.sublist.mem hc)
    rcases mem_collapseAux false (sanStep1 name.data) hcm with rfl | ⟨hcs, hsu⟩
    · exact ⟨Or.inl (by decide), by decide⟩
    · have hnsp : pySpaceChar c = false := by
        simp only [isSU, Bool.or_eq_false_iff] at hsu
        exact hsu.1
      rcases mem_sanStep1 hcs with rfl | hk
      · exact ⟨Or.inl (by decide), by decide⟩
      · have : (pyWordChar c = true ∨ pySpaceChar c = true) ∨ c = '-' := by
          simpa [sanKeep, Bool.or_eq_true] using hk
        rcases this with (h | h) | h
        · exact ⟨Or.inl h, hnsp⟩
        · rw [h] at hnsp; cases hnsp
        · exact ⟨Or.inr (by simpa using h), hnsp⟩
  · rw [hdata]
    have hchain : List.Chain' (fun x y : Char => ¬(x = '_' ∧ y = '_')) m :=
      (chain_collapseAux false (sanStep1 name.data)).1
    have hm1 : List.Chain' (fun x y : Char => ¬(x = '_' ∧ y = '_'))
        (m.dropWhile (fun c => c == '_')) :=
      hchain.suffix (List.dropWhile_suffix _)
    have h2 : List.Chain'
        (flip (fun x y : Char => ¬(x = '_' ∧ y = '_')))
        (m.dropWhile (fun c => c == '_')).reverse :=
      List.chain'_reverse.mpr hm1
    have h3 : List.Chain'
        (flip (fun x y : Char => ¬(x = '_' ∧ y = '_')))
        ((m.dropWhile (fun c => c == '_')).reverse.dropWhile
          (fun c => c == '_')) :=
      h2.suffix (List.dropWhile_suffix _)
    exact List.chain'_reverse.mpr h3
  · intro c hc
    rw [hdata] at hc
    rcases hpre with ⟨t, ht⟩
    have hhead : (m.dropWhile (fun c => c == '_')).head? = some c := by
      rw [← ht]
      cases hs : stripUnderscores m with
      | nil => rw [hs] at hc; cases hc
      | cons x xs =>
        rw [hs] at hc
        cases hc
        rfl
    have := head?_dropWhile_false (fun c => c == '_') m hhead
    simpa using this
  · intro c hc
    rw [hdata] at hc
    have hlast : ((m.dropWhile (fun c => c == '_')).reverse.dropWhile
        (fun c => c == '_')).head? = some c := by
      have : stripUnderscores m =
          ((m.dropWhile (fun c => c == '_')).reverse.dropWhile
            (fun c => c == '_')).reverse := rfl
      rw [this, List.getLast?_reverse] at hc
      exact hc
    have := head?_dropWhile_false (fun c => c == '_') _ hlast
    simpa using this

/-- Witness for the amended claim C9 on the concrete name
`a b-c__d  e!`: the sanitized result is inspectable and the amended
guarantees hold at its characters and ends. -/
theorem claim_C9_witness :
    ((pyWordChar 'b' = true ∨ 'b' = '-') ∧ pySpaceChar 'b' = false) ∧
    (∀ c : Char, (sanitize_filename "a b-c__d  e!").data.head? = some c →
      c ≠ '_') ∧
    List.Chain' (fun x y : Char => ¬(x = '_' ∧ y = '_'))
      (sanitize_filename "a b-c__d  e!").data :=
  ⟨(claim_C9_amended "a b-c__d  e!").1 'b' (by decide),
   (claim_C9_amended "a b-c__d  e!").2.2.1,
   (claim_C9_amended "a b-c__d  e!").2.1⟩

end CameraServer
